import Mathlib

/-
  Verification of the meic options-trading scripts.

  The definitions below are a shallow embedding of the price-discovery,
  strike-selection, combo-pricing and order-construction routines of the
  repository (market_data.py, options.py, orders.py, strategies.py).
  Python floats are embedded as rationals; the special values None and
  float('nan') that flow through ib_insync ticker fields are modelled
  explicitly.  Broker interaction (reqMktData, reqHistoricalData,
  reqContractDetails, placeOrder) is modelled by passing the data those
  calls would return as explicit arguments: a stream of tickers indexed
  by attempt number, a list of historical bar closes, an assigned order
  id, and so on.
-/

namespace Meic

/-- A Python float-or-None value as it appears in ib_insync ticker fields.
`PyVal.none` models Python `None`, `PyVal.nan` models `float('nan')`, and
`PyVal.num q` models an ordinary finite float, embedded as a rational. -/
inductive PyVal where
  | none
  | nan
  | num (q : ℚ)
  deriving DecidableEq

/-- True exactly when the value is an ordinary number: this is the Python
test `x is not None and not math.isnan(x)`. -/
def PyVal.isNum : PyVal → Bool
  | .num _ => true
  | _ => false

/-- True exactly when the value is not Python `None` (NaN counts as a float,
so `isinstance(x, float)` and `x is not None` agree on these values). -/
def PyVal.isNotNone : PyVal → Bool
  | .none => false
  | _ => true

/-- Midpoint `(bid + ask) / 2` of two Python floats.  NaN propagates, as in
Python float arithmetic.  The `None` cases are unreachable at every call
site because the code guards the midpoint with `is not None` (or
`isinstance(:, float)`) checks on both sides. -/
def pyMid : PyVal → PyVal → PyVal
  | .num b, .num a => .num ((b + a) / 2)
  | _, _ => .nan

/-- Python float multiplication by a rational constant; NaN propagates. -/
def pyMul (v : PyVal) (r : ℚ) : PyVal :=
  match v with
  | .num q => .num (q * r)
  | w => w

/-- Python float negation; NaN propagates. -/
def pyNeg (v : PyVal) : PyVal :=
  match v with
  | .num q => .num (-q)
  | w => w

/-- Python float addition; NaN propagates.  The `None` cases are unreachable
at every call site (an accumulator that starts at `0.0` only ever meets
numbers or NaN). -/
def pyAdd : PyVal → PyVal → PyVal
  | .num a, .num b => .num (a + b)
  | .none, _ => .none
  | _, .none => .none
  | _, _ => .nan

/-- One market-data result, as read by `get_current_mid_price`
(market_data.py): the bid, ask and last fields of the ticker returned by
`ib.reqMktData`. -/
structure Ticker where
  bid : PyVal
  ask : PyVal
  last : PyVal
  deriving DecidableEq

/-- Outcome of one iteration of the retry loop of `get_current_mid_price`:
a returned price, a `break` out of the loop because no historical data was
available, or a fall-through to the next attempt. -/
inductive AttemptStep where
  | price (p : PyVal)
  | noHist
  | retryNext
  deriving DecidableEq

/-- One iteration of the body of the `while attempt < max_retries` loop of
`get_current_mid_price` (market_data.py), given the ticker produced by
this attempt's `ib.reqMktData` call and the closes of the historical daily
bars that `ib.reqHistoricalData` would return.  The three branches are
translated in source order:
first, if bid or ask equals -1 and the last price is valid, return the
last price; second, if bid and ask are both non-None and neither is -1,
return the midpoint; third, if the last price is None or NaN, return the
close of the latest historical bar, or break out of the loop when there
are no bars; otherwise fall through and retry. -/
def midPriceAttempt (t : Ticker) (hist : List ℚ) : AttemptStep :=
  if (t.bid = PyVal.num (-1) ∨ t.ask = PyVal.num (-1)) ∧ t.last.isNum then
    AttemptStep.price t.last
  else if t.bid.isNotNone ∧ t.ask.isNotNone ∧
      t.bid ≠ PyVal.num (-1) ∧ t.ask ≠ PyVal.num (-1) then
    AttemptStep.price (pyMid t.bid t.ask)
  else if ¬ t.last.isNum then
    match hist.getLast? with
    | Option.some c => AttemptStep.price (PyVal.num c)
    | Option.none => AttemptStep.noHist
  else
    AttemptStep.retryNext

/-- The retry loop of `get_current_mid_price`.  `tickers i` is the ticker
the i-th `ib.reqMktData` subscription yields, and `hist i` the historical
closes available on attempt i.  The second component counts the market
data subscriptions made (one per loop iteration).  Fuel is the number of
remaining attempts, so the loop structurally terminates. -/
def midPriceLoop (tickers : ℕ → Ticker) (hist : ℕ → List ℚ) :
    ℕ → ℕ → PyVal × ℕ
  | _, 0 => (PyVal.none, 0)
  | attempt, Nat.succ fuel =>
    match midPriceAttempt (tickers attempt) (hist attempt) with
    | AttemptStep.price p => (p, 1)
    | AttemptStep.noHist => (PyVal.none, 1)
    | AttemptStep.retryNext =>
      let r := midPriceLoop tickers hist (attempt + 1) fuel
      (r.1, r.2 + 1)

/-- market_data.get_current_mid_price: the value the function returns.
The Python function returns `None` when the loop exhausts its attempts or
breaks out for lack of historical data, which is `PyVal.none` here. -/
def get_current_mid_price (tickers : ℕ → Ticker) (hist : ℕ → List ℚ)
    (max_retries : ℕ) : PyVal :=
  (midPriceLoop tickers hist 0 max_retries).1

/-- Number of `ib.reqMktData` subscriptions `get_current_mid_price` makes:
one per executed attempt of the retry loop. -/
def midPriceSubscriptions (tickers : ℕ → Ticker) (hist : ℕ → List ℚ)
    (max_retries : ℕ) : ℕ :=
  (midPriceLoop tickers hist 0 max_retries).2

/-- Default value of the `max_retries` parameter of
`get_current_mid_price` in market_data.py. -/
def defaultMaxRetries : ℕ := 3

/-- One candidate option of the chain scanned by `get_closest_strike`
(options.py): the strike of the contract and the bid field of the ticker
`ib.reqTickers` returned for it. -/
structure OptEntry where
  strike : ℚ
  bid : PyVal
  deriving DecidableEq

/-- The scan loop of `get_closest_strike`: walks the zipped contracts and
tickers, skips entries whose bid is None or NaN, and keeps the pair
(closest_strike, min_difference); `Option.none` is the initial state
closest_strike = None, min_difference = inf. -/
def closestStrikeGo (price : ℚ) :
    List OptEntry → Option (ℚ × ℚ) → Option (ℚ × ℚ)
  | [], best => best
  | e :: rest, best =>
    if e.bid.isNum then
      match best with
      | Option.none =>
        closestStrikeGo price rest (Option.some (e.strike, |e.strike - price|))
      | Option.some (s, m) =>
        if |e.strike - price| < m then
          closestStrikeGo price rest (Option.some (e.strike, |e.strike - price|))
        else
          closestStrikeGo price rest (Option.some (s, m))
    else
      closestStrikeGo price rest best

/-- options.get_closest_strike, with the broker data passed in: `chain` is
the option chain (one entry per contract, with the bid its ticker quoted)
and `price` the target.  An empty chain reproduces the early
`return float('nan')` when `reqContractDetails` finds nothing; when every
entry is filtered out the final `closest_strike is None` branch also
returns NaN. -/
def get_closest_strike (chain : List OptEntry) (price : ℚ) : PyVal :=
  match chain with
  | [] => PyVal.nan
  | _ =>
    match closestStrikeGo price chain Option.none with
    | Option.some sm => PyVal.num sm.1
    | Option.none => PyVal.nan

/-- Validity of a quoted bid in the sense of the specification sentence for
closest-strike search: non-null, non-NaN, and not the -1 "no data"
sentinel.  (The source code filters only None and NaN.) -/
def claimValidBid (v : PyVal) : Bool :=
  v.isNum && !(v == PyVal.num (-1))

/-- Python `round`: round half to even (banker's rounding), on the rational
embedding of floats. -/
def pyRound (q : ℚ) : ℤ :=
  let f := ⌊q⌋
  if q - f < 1 / 2 then f
  else if 1 / 2 < q - f then f + 1
  else if f % 2 = 0 then f else f + 1

/-- The tick-rounding expression `round(price / min_tick) * min_tick` used in
market_data.calc_combo_model_price and in the stop-loss computation of
main.py. -/
def roundToTick (price tick : ℚ) : ℚ :=
  (pyRound (price / tick) : ℚ) * tick

/-- Broker data consumed for one leg of calc_combo_model_price
(market_data.py).  `modelGreeks` is the state of `ticker.modelGreeks` once
the bounded wait for theoretical data ends: `Option.none` when the greeks
never populate, `Option.some v` when they do, with `v` the `optPrice`
field (itself possibly None or NaN).  `bid` and `ask` are the fields of
the second, real-time snapshot the fallback requests, and `hist` the
closes of the historical daily bars. -/
structure LegData where
  modelGreeks : Option PyVal
  bid : PyVal
  ask : PyVal
  hist : List ℚ
  deriving DecidableEq

/-- One element of the `strategy_legs` argument of calc_combo_model_price:
the leg's market data, the action string, and the leg ratio. -/
structure StrategyLeg where
  data : LegData
  action : String
  ratioQ : ℚ
  deriving DecidableEq

/-- The per-leg price-resolution chain of calc_combo_model_price.
`opt_price` is the theoretical model price when the greeks populated and
carried a non-None optPrice.  When `opt_price` is None the fallback runs:
if bid and ask both equal -1, the latest historical close is used (the leg
is skipped when there are no bars); otherwise, if bid and ask are both
floats (i.e. the original ticker fields were not None, so the 'N/A'
placeholder was not substituted), the bid/ask midpoint is used; otherwise
the leg is skipped.  `Option.none` is a skipped leg (`continue`). -/
def legOptPrice (d : LegData) : Option PyVal :=
  match d.modelGreeks.getD PyVal.none with
  | PyVal.none =>
    if d.bid = PyVal.num (-1) ∧ d.ask = PyVal.num (-1) then
      (d.hist.getLast?).map PyVal.num
    else if d.bid.isNotNone ∧ d.ask.isNotNone then
      Option.some (pyMid d.bid d.ask)
    else
      Option.none
  | v => Option.some v

/-- The accumulation loop of calc_combo_model_price: for each leg that is
not skipped, `leg_price = opt_price * ratio`, negated when the action is
'SELL', is added to the running total (a Python float, so NaN
propagates). -/
def comboLoop : List StrategyLeg → PyVal → PyVal
  | [], total => total
  | l :: rest, total =>
    match legOptPrice l.data with
    | Option.none => comboLoop rest total
    | Option.some pv =>
      let legPrice := pyMul pv l.ratioQ
      let legPrice := if l.action = "SELL" then pyNeg legPrice else legPrice
      comboLoop rest (pyAdd total legPrice)

/-- market_data.calc_combo_model_price: accumulate the signed, ratio-scaled
leg prices starting from `0.0`, return NaN when the total is NaN, and
otherwise round the total to the tick size.  (The `PyVal.none` case of the
match is unreachable: the accumulator starts at a number and only numbers
or NaN are ever added.) -/
def calc_combo_model_price (legs : List StrategyLeg) (min_tick : ℚ) : PyVal :=
  match comboLoop legs (PyVal.num 0) with
  | PyVal.nan => PyVal.nan
  | PyVal.num t => PyVal.num (roundToTick t min_tick)
  | PyVal.none => PyVal.none

/-- Rational contribution of one resolved leg: the leg price scaled by the
ratio, with sign -1 for a 'SELL' action and +1 otherwise, or nothing for a
skipped or NaN-priced leg. -/
def legContributionQ (l : StrategyLeg) : Option ℚ :=
  match legOptPrice l.data with
  | Option.some (PyVal.num q) =>
    Option.some ((if l.action = "SELL" then -1 else 1) * (q * l.ratioQ))
  | _ => Option.none

/-- Closed-form signed sum over the non-skipped legs of a strategy. -/
def comboSignedSum (legs : List StrategyLeg) : ℚ :=
  (legs.filterMap legContributionQ).sum

/-- One leg as seen by combo bid/ask aggregation: action, ratio, and the
leg's quoted bid and ask. -/
structure QuoteLeg where
  action : String
  ratioQ : ℚ
  bid : PyVal
  ask : PyVal
  deriving DecidableEq

/-- Contribution of one quoted side to an aggregate: the quote scaled by
the signed factor and the ratio, or zero when the quote is missing
(None or NaN). -/
def quoteContributionQ (sign r : ℚ) (v : PyVal) : ℚ :=
  match v with
  | PyVal.num q => sign * r * q
  | _ => 0

/-- Accumulation pass of the combo bid/ask aggregation: the pair is the
running (aggregate bid, aggregate ask). -/
def comboPricesLoop : List QuoteLeg → ℚ × ℚ → ℚ × ℚ
  | [], acc => acc
  | l :: rest, acc =>
    let sign : ℚ := if l.action = "SELL" then 1 else -1
    comboPricesLoop rest
      (acc.1 + quoteContributionQ sign l.ratioQ l.bid,
       acc.2 + quoteContributionQ sign l.ratioQ l.ask)

/-- Modelled from the spec: `get_combo_prices` is imported and called by
main.py but its definition is not among the source files.  Per the spec
(section 4.3, Combo mid-price aggregation): each leg has quoted bid/ask
and a signed contribution, +1 for a held/sold leg and -1 for a bought
leg, scaled by the leg ratio; aggregate bid and aggregate ask are the
signed sums across legs; aggregate mid is their average, rounded to the
configured tick size; a missing per-leg quote contributes zero.  The
result triple is (bid, mid, ask), matching the unpacking in main.py. -/
def get_combo_prices (legs : List QuoteLeg) (min_tick : ℚ) : ℚ × ℚ × ℚ :=
  let ba := comboPricesLoop legs (0, 0)
  (ba.1, roundToTick ((ba.1 + ba.2) / 2) min_tick, ba.2)

/-- The fields of an ib_insync Order that
orders.submit_adaptive_order_trailing_stop sets or that the claims
mention.  `orderId` is the id the broker assigns on placement; ib_insync
initialises it to 0, which is the falsy value the
`if not primary_order.orderId` check tests. -/
structure Order where
  orderType : String
  action : String
  totalQuantity : ℤ
  tif : String
  algoStrategy : String
  lmtPrice : Option ℚ
  auxPrice : Option ℚ
  parentId : ℕ
  orderId : ℕ
  transmit : Bool
  deriving DecidableEq

/-- orders.submit_adaptive_order_trailing_stop, with the broker modelled by
`assignedId`, the order id that `ib.placeOrder` assigns to the primary
order (0 when no id is assigned).  The result is the function's return
value paired with the list of orders placed, in placement order.  The
contract argument is omitted: the function only rewrites its exchange to
'SMART' and passes it through to `ib.placeOrder`. -/
def submit_adaptive_order_trailing_stop (assignedId : ℕ) (limit_price : ℚ)
    (order_type : String) (action : String) (is_live : Bool) (quantity : ℤ)
    (stop_loss_amt : ℚ) : Option Order × List Order :=
  if ¬ (action = "BUY" ∨ action = "SELL") then
    (Option.none, [])
  else if ¬ (order_type = "MKT" ∨ order_type = "LMT") then
    (Option.none, [])
  else
    let primary : Order :=
      { orderType := order_type
        action := action
        totalQuantity := quantity
        tif := "DAY"
        algoStrategy := "Adaptive"
        lmtPrice := if order_type = "LMT" then Option.some limit_price else Option.none
        auxPrice := Option.none
        parentId := 0
        orderId := assignedId
        transmit := false }
    if assignedId = 0 then
      (Option.none, [primary])
    else
      let trailing : Order :=
        { orderType := "TRAIL"
          action := if action = "BUY" then "SELL" else "BUY"
          totalQuantity := quantity
          tif := "DAY"
          algoStrategy := ""
          lmtPrice := Option.none
          auxPrice := Option.some stop_loss_amt
          parentId := assignedId
          orderId := 0
          transmit := is_live }
      (Option.some primary, [primary, trailing])

/-- The contract fields that orders.create_bag reads from the underlying
and from each leg. -/
structure Contract where
  symbol : String
  secType : String
  currency : String
  exchange : String
  conId : ℕ
  deriving DecidableEq

/-- The fields of an ib_insync ComboLeg that create_bag sets.  `ratioN`
models the `ratio` attribute. -/
structure ComboLeg where
  conId : ℕ
  action : String
  ratioN : ℕ
  exchange : String
  openClose : ℕ
  deriving DecidableEq

/-- The combo contract create_bag builds. -/
structure BagContract where
  symbol : String
  secType : String
  currency : String
  exchange : String
  comboLegs : List ComboLeg
  deriving DecidableEq

/-- Python `zip` over three lists: truncates to the shortest. -/
def zip3 {α β γ : Type} : List α → List β → List γ → List (α × β × γ)
  | a :: as, b :: bs, c :: cs => (a, b, c) :: zip3 as bs cs
  | _, _, _ => []

/-- orders.create_bag: a BAG contract carrying the underlying's symbol,
currency and exchange, with one ComboLeg per zipped
(leg, action, ratio) triple, each preserving the leg's conId and
exchange and with openClose 0. -/
def create_bag (und_contract : Contract) (legs : List Contract)
    (actions : List String) (ratios : List ℕ) : BagContract :=
  { symbol := und_contract.symbol
    secType := "BAG"
    currency := und_contract.currency
    exchange := und_contract.exchange
    comboLegs := (zip3 legs actions ratios).map
      (fun t => ⟨t.1.conId, t.2.1, t.2.2, t.1.exchange, 0⟩) }

/-- The combo-construction tail of strategies.iron_condor: once the four
option legs (short put, long put, short call, long call) are qualified,
the function calls create_bag with actions SELL, BUY, SELL, BUY and all
ratios 1.  Contract qualification itself is a broker call, so the four
qualified legs are taken as inputs. -/
def iron_condor_bag (und_contract sell_put buy_put sell_call buy_call : Contract) :
    BagContract :=
  create_bag und_contract [sell_put, buy_put, sell_call, buy_call]
    ["SELL", "BUY", "SELL", "BUY"] [1, 1, 1, 1]

lemma midPriceLoop_succ (tickers : ℕ → Ticker) (hist : ℕ → List ℚ)
    (attempt fuel : ℕ) :
    midPriceLoop tickers hist attempt (fuel + 1) =
      match midPriceAttempt (tickers attempt) (hist attempt) with
      | AttemptStep.price p => (p, 1)
      | AttemptStep.noHist => (PyVal.none, 1)
      | AttemptStep.retryNext =>
        ((midPriceLoop tickers hist (attempt + 1) fuel).1,
         (midPriceLoop tickers hist (attempt + 1) fuel).2 + 1) := rfl

lemma midPriceAttempt_sentinel (t : Ticker) (hist : List ℚ)
    (h1 : t.bid = PyVal.num (-1) ∨ t.ask = PyVal.num (-1))
    (h2 : t.last.isNum = true) :
    midPriceAttempt t hist = AttemptStep.price t.last := by
  unfold midPriceAttempt
  rw [if_pos ⟨h1, h2⟩]

lemma midPriceAttempt_mid (t : Ticker) (hist : List ℚ) (b a : ℚ)
    (hb : t.bid = PyVal.num b) (ha : t.ask = PyVal.num a)
    (hb1 : b ≠ -1) (ha1 : a ≠ -1) :
    midPriceAttempt t hist = AttemptStep.price (PyVal.num ((b + a) / 2)) := by
  have hbne : t.bid ≠ PyVal.num (-1) := by
    rw [hb]; intro hcon; exact hb1 (by injection hcon)
  have hane : t.ask ≠ PyVal.num (-1) := by
    rw [ha]; intro hcon; exact ha1 (by injection hcon)
  unfold midPriceAttempt
  rw [if_neg, if_pos]
  · rw [hb, ha]; rfl
  · exact ⟨by rw [hb]; rfl, by rw [ha]; rfl, hbne, hane⟩
  · rintro ⟨hsent | hsent, -⟩
    · exact hbne hsent
    · exact hane hsent

lemma midPriceAttempt_hist (t : Ticker) (hist : List ℚ)
    (hlast : ¬ t.last.isNum = true)
    (hmid : ¬ (t.bid.isNotNone = true ∧ t.ask.isNotNone = true ∧
        t.bid ≠ PyVal.num (-1) ∧ t.ask ≠ PyVal.num (-1))) :
    midPriceAttempt t hist =
      match hist.getLast? with
      | Option.some c => AttemptStep.price (PyVal.num c)
      | Option.none => AttemptStep.noHist := by
  unfold midPriceAttempt
  rw [if_neg (fun hcon => hlast hcon.2), if_neg hmid, if_pos hlast]

/-- C1 (corrected): the price-discovery routine does NOT prefer the last
trade price first.  The actual preference order of
`get_current_mid_price`, proved here for the first attempt of any run
with at least one retry allowed: the last trade price is used only when
bid or ask equals the -1 sentinel and the last price is valid; otherwise
the bid/ask midpoint is used when both sides are quoted (non-None) and
neither equals -1; otherwise, when the last price is invalid (None or
NaN), the close of the latest historical daily bar is the final
fallback, with the unavailable result `None` when no bar exists. -/
theorem C1_mid_price_preference (tickers : ℕ → Ticker) (hist : ℕ → List ℚ)
    (n : ℕ) (hn : 0 < n) :
    (((tickers 0).bid = PyVal.num (-1) ∨ (tickers 0).ask = PyVal.num (-1)) →
      ∀ l : ℚ, (tickers 0).last = PyVal.num l →
      get_current_mid_price tickers hist n = PyVal.num l)
    ∧ (∀ b a : ℚ, (tickers 0).bid = PyVal.num b → (tickers 0).ask = PyVal.num a →
      b ≠ -1 → a ≠ -1 →
      get_current_mid_price tickers hist n = PyVal.num ((b + a) / 2))
    ∧ (¬ (tickers 0).last.isNum = true →
      ¬ ((tickers 0).bid.isNotNone = true ∧ (tickers 0).ask.isNotNone = true ∧
        (tickers 0).bid ≠ PyVal.num (-1) ∧ (tickers 0).ask ≠ PyVal.num (-1)) →
      get_current_mid_price tickers hist n =
        (match (hist 0).getLast? with
         | Option.some c => PyVal.num c
         | Option.none => PyVal.none)) := by
  obtain ⟨m, rfl⟩ : ∃ m, n = m + 1 := ⟨n - 1, by omega⟩
  refine ⟨?_, ?_, ?_⟩
  · intro hsent l hlast
    have hv : (tickers 0).last.isNum = true := by rw [hlast]; rfl
    unfold get_current_mid_price
    rw [midPriceLoop_succ, midPriceAttempt_sentinel _ _ hsent hv, hlast]
  · intro b a hb ha hb1 ha1
    unfold get_current_mid_price
    rw [midPriceLoop_succ, midPriceAttempt_mid _ _ b a hb ha hb1 ha1]
  · intro hlast hmid
    unfold get_current_mid_price
    rw [midPriceLoop_succ, midPriceAttempt_hist _ _ hlast hmid]
    cases (hist 0).getLast? <;> rfl

/-- C1 counterexample: with bid 100, ask 104 and a valid last trade price
of 50 the routine returns the midpoint 102, not the last price 50, so the
claimed preference order (last price first whenever it is valid) is false
on the code. -/
theorem C1_counterexample :
    get_current_mid_price (fun _ => ⟨PyVal.num 100, PyVal.num 104, PyVal.num 50⟩)
      (fun _ => []) 3 = PyVal.num 102
    ∧ PyVal.num (102 : ℚ) ≠ PyVal.num 50 := by
  constructor
  · unfold get_current_mid_price
    rw [midPriceLoop_succ,
      midPriceAttempt_mid _ _ 100 104 rfl rfl (by norm_num) (by norm_num)]
    norm_num
  · intro h
    have : (102 : ℚ) = 50 := by injection h
    norm_num at this

/-- C1 witness: the amended preference order evaluated at a concrete run
(bid 1, ask 3, last None) returns the midpoint 2. -/
theorem C1_witness :
    get_current_mid_price (fun _ => ⟨PyVal.num 1, PyVal.num 3, PyVal.none⟩)
      (fun _ => []) 3 = PyVal.num ((1 + 3) / 2) :=
  (C1_mid_price_preference (fun _ => ⟨PyVal.num 1, PyVal.num 3, PyVal.none⟩)
    (fun _ => []) 3 (by norm_num)).2.1 1 3 rfl rfl (by norm_num) (by norm_num)

/-- A bid or ask quote that carries no usable price: Python None, NaN, or
the -1 "no data" sentinel. -/
def invalidQuote (v : PyVal) : Prop :=
  v = PyVal.none ∨ v = PyVal.nan ∨ v = PyVal.num (-1)

/-- A last-trade value the code treats as invalid: Python None or NaN. -/
def invalidLast (v : PyVal) : Prop :=
  v = PyVal.none ∨ v = PyVal.nan

lemma midPriceAttempt_all_invalid (t : Ticker)
    (hb : invalidQuote t.bid) (ha : invalidQuote t.ask)
    (hl : invalidLast t.last) :
    midPriceAttempt t [] = AttemptStep.noHist
    ∨ midPriceAttempt t [] = AttemptStep.price PyVal.nan := by
  obtain ⟨b, a, l⟩ := t
  dsimp only [invalidQuote, invalidLast] at hb ha hl
  rcases hb with h | h | h <;> subst h <;>
    rcases ha with h | h | h <;> subst h <;>
      rcases hl with h | h <;> subst h <;> decide

/-- C2 (confirmed): whenever every attempt sees only invalid data (bid and
ask each None, NaN or the -1 sentinel; last None or NaN) and no
historical bar is available, `get_current_mid_price` returns one of the
two non-numeric unavailable sentinels (`None` from the exhausted or
broken loop, NaN when a NaN midpoint is formed from NaN quotes), never a
number — so the result is distinguishable from a valid price of zero.
The embedding is total, so no exception is raised (in the source, the
loop body is additionally wrapped in a catch-all `except` that retries). -/
theorem C2_unavailable_sentinel (tickers : ℕ → Ticker) (hist : ℕ → List ℚ)
    (n : ℕ)
    (hbid : ∀ i, invalidQuote (tickers i).bid)
    (hask : ∀ i, invalidQuote (tickers i).ask)
    (hlast : ∀ i, invalidLast (tickers i).last)
    (hhist : ∀ i, hist i = []) :
    (get_current_mid_price tickers hist n = PyVal.none
      ∨ get_current_mid_price tickers hist n = PyVal.nan)
    ∧ ∀ q : ℚ, get_current_mid_price tickers hist n ≠ PyVal.num q := by
  have hmain : get_current_mid_price tickers hist n = PyVal.none
      ∨ get_current_mid_price tickers hist n = PyVal.nan := by
    cases n with
    | zero => exact Or.inl rfl
    | succ m =>
      unfold get_current_mid_price
      rw [midPriceLoop_succ, hhist 0]
      rcases midPriceAttempt_all_invalid (tickers 0) (hbid 0) (hask 0) (hlast 0)
        with h | h <;> rw [h]
      · exact Or.inl rfl
      · exact Or.inr rfl
  refine ⟨hmain, ?_⟩
  intro q hq
  rcases hmain with h | h <;> rw [hq] at h <;> exact PyVal.noConfusion h

/-- C2 witness: with NaN bid, ask and last on every attempt and no
historical bars, the routine returns a non-numeric sentinel. -/
theorem C2_witness :
    (get_current_mid_price (fun _ => ⟨PyVal.nan, PyVal.nan, PyVal.nan⟩)
        (fun _ => []) 3 = PyVal.none
      ∨ get_current_mid_price (fun _ => ⟨PyVal.nan, PyVal.nan, PyVal.nan⟩)
        (fun _ => []) 3 = PyVal.nan)
    ∧ ∀ q : ℚ, get_current_mid_price (fun _ => ⟨PyVal.nan, PyVal.nan, PyVal.nan⟩)
        (fun _ => []) 3 ≠ PyVal.num q :=
  C2_unavailable_sentinel _ _ 3
    (fun _ => Or.inr (Or.inl rfl))
    (fun _ => Or.inr (Or.inl rfl))
    (fun _ => Or.inr rfl)
    (fun _ => rfl)

lemma midPriceLoop_count_le (tickers : ℕ → Ticker) (hist : ℕ → List ℚ) :
    ∀ (fuel attempt : ℕ), (midPriceLoop tickers hist attempt fuel).2 ≤ fuel := by
  intro fuel
  induction fuel with
  | zero => intro attempt; exact Nat.le_refl 0
  | succ m ih =>
    intro attempt
    rw [midPriceLoop_succ]
    cases midPriceAttempt (tickers attempt) (hist attempt) with
    | price p => exact Nat.succ_le_succ (Nat.zero_le m)
    | noHist => exact Nat.succ_le_succ (Nat.zero_le m)
    | retryNext => exact Nat.succ_le_succ (ih (attempt + 1))

/-- C3 (confirmed): the retry loop of `get_current_mid_price` subscribes to
market data at most `max_retries` times (one `ib.reqMktData` call per
attempt), for every stream of ticker results and historical data, and the
default of the `max_retries` parameter is 3.  The loop is structurally
bounded by its fuel, so the function terminates on every input. -/
theorem C3_bounded_attempts (tickers : ℕ → Ticker) (hist : ℕ → List ℚ)
    (max_retries : ℕ) :
    midPriceSubscriptions tickers hist max_retries ≤ max_retries
    ∧ defaultMaxRetries = 3 :=
  ⟨midPriceLoop_count_le tickers hist max_retries 0, rfl⟩

lemma closestStrikeGo_cons_none (price : ℚ) (e : OptEntry) (rest : List OptEntry) :
    closestStrikeGo price (e :: rest) Option.none =
      if e.bid.isNum then
        closestStrikeGo price rest (Option.some (e.strike, |e.strike - price|))
      else
        closestStrikeGo price rest Option.none := rfl

lemma closestStrikeGo_cons_some (price : ℚ) (e : OptEntry) (rest : List OptEntry)
    (s m : ℚ) :
    closestStrikeGo price (e :: rest) (Option.some (s, m)) =
      if e.bid.isNum then
        (if |e.strike - price| < m then
          closestStrikeGo price rest (Option.some (e.strike, |e.strike - price|))
        else
          closestStrikeGo price rest (Option.some (s, m)))
      else
        closestStrikeGo price rest (Option.some (s, m)) := rfl

lemma closestStrikeGo_some (price : ℚ) :
    ∀ (rest : List OptEntry) (s m : ℚ), m = |s - price| →
    ∃ s2, closestStrikeGo price rest (Option.some (s, m)) =
        Option.some (s2, |s2 - price|)
      ∧ (s2 = s ∨ ∃ e ∈ rest, e.bid.isNum = true ∧ e.strike = s2)
      ∧ |s2 - price| ≤ m
      ∧ ∀ e ∈ rest, e.bid.isNum = true → |s2 - price| ≤ |e.strike - price| := by
  intro rest
  induction rest with
  | nil =>
    intro s m hm
    refine ⟨s, ?_, Or.inl rfl, by rw [hm], by simp⟩
    rw [hm]; rfl
  | cons e rest ih =>
    intro s m hm
    rw [closestStrikeGo_cons_some]
    by_cases hbid : e.bid.isNum = true
    · rw [if_pos hbid]
      by_cases hlt : |e.strike - price| < m
      · rw [if_pos hlt]
        obtain ⟨s2, hgo, hmem, hle, hall⟩ := ih e.strike (|e.strike - price|) rfl
        refine ⟨s2, hgo, ?_, le_trans hle (le_of_lt hlt), ?_⟩
        · rcases hmem with h | ⟨e', he', hb', hs'⟩
          · exact Or.inr ⟨e, List.mem_cons_self e rest, hbid, h.symm⟩
          · exact Or.inr ⟨e', List.mem_cons_of_mem e he', hb', hs'⟩
        · intro e' he' hb'
          rcases List.mem_cons.mp he' with h | h
          · rw [h]; exact hle
          · exact hall e' h hb'
      · rw [if_neg hlt]
        obtain ⟨s2, hgo, hmem, hle, hall⟩ := ih s m hm
        refine ⟨s2, hgo, ?_, hle, ?_⟩
        · rcases hmem with h | ⟨e', he', hb', hs'⟩
          · exact Or.inl h
          · exact Or.inr ⟨e', List.mem_cons_of_mem e he', hb', hs'⟩
        · intro e' he' hb'
          rcases List.mem_cons.mp he' with h | h
          · rw [h]; exact le_trans hle (not_lt.mp hlt)
          · exact hall e' h hb'
    · rw [if_neg hbid]
      obtain ⟨s2, hgo, hmem, hle, hall⟩ := ih s m hm
      refine ⟨s2, hgo, ?_, hle, ?_⟩
      · rcases hmem with h | ⟨e', he', hb', hs'⟩
        · exact Or.inl h
        · exact Or.inr ⟨e', List.mem_cons_of_mem e he', hb', hs'⟩
      · intro e' he' hb'
        rcases List.mem_cons.mp he' with h | h
        · exact absurd (h ▸ hb') hbid
        · exact hall e' h hb'

lemma closestStrikeGo_from_none (price : ℚ) :
    ∀ (rest : List OptEntry), (∃ e ∈ rest, e.bid.isNum = true) →
    ∃ s2, closestStrikeGo price rest Option.none =
        Option.some (s2, |s2 - price|)
      ∧ (∃ e ∈ rest, e.bid.isNum = true ∧ e.strike = s2)
      ∧ ∀ e ∈ rest, e.bid.isNum = true → |s2 - price| ≤ |e.strike - price| := by
  intro rest
  induction rest with
  | nil => rintro ⟨e, he, -⟩; exact absurd he (List.not_mem_nil e)
  | cons e rest ih =>
    intro hex
    rw [closestStrikeGo_cons_none]
    by_cases hbid : e.bid.isNum = true
    · rw [if_pos hbid]
      obtain ⟨s2, hgo, hmem, hle, hall⟩ :=
        closestStrikeGo_some price rest e.strike (|e.strike - price|) rfl
      refine ⟨s2, hgo, ?_, ?_⟩
      · rcases hmem with h | ⟨e', he', hb', hs'⟩
        · exact ⟨e, List.mem_cons_self e rest, hbid, h.symm⟩
        · exact ⟨e', List.mem_cons_of_mem e he', hb', hs'⟩
      · intro e' he' hb'
        rcases List.mem_cons.mp he' with h | h
        · rw [h]; exact hle
        · exact hall e' h hb'
    · rw [if_neg hbid]
      obtain ⟨e0, he0, hb0⟩ := hex
      rcases List.mem_cons.mp he0 with h | h
      · exact absurd (h ▸ hb0) hbid
      · obtain ⟨s2, hgo, ⟨e', he', hb', hs'⟩, hall⟩ := ih ⟨e0, h, hb0⟩
        refine ⟨s2, hgo, ⟨e', List.mem_cons_of_mem e he', hb', hs'⟩, ?_⟩
        intro e'' he'' hb''
        rcases List.mem_cons.mp he'' with h2 | h2
        · exact absurd (h2 ▸ hb'') hbid
        · exact hall e'' h2 hb''

/-- C4 (amended): the closest-strike search discards exactly the
candidates whose quoted bid is None or NaN — a bid equal to the -1 "no
data" sentinel is NOT discarded — and among the remaining candidates it
returns a strike minimizing the absolute distance to the target price
(the first such strike in chain order). -/
theorem C4_closest_strike_min (chain : List OptEntry) (price : ℚ)
    (hex : ∃ e ∈ chain, e.bid.isNum = true) :
    ∃ s : ℚ, get_closest_strike chain price = PyVal.num s
      ∧ (∃ e ∈ chain, e.bid.isNum = true ∧ e.strike = s)
      ∧ ∀ e ∈ chain, e.bid.isNum = true → |s - price| ≤ |e.strike - price| := by
  obtain ⟨s2, hgo, hmem, hall⟩ := closestStrikeGo_from_none price chain hex
  refine ⟨s2, ?_, hmem, hall⟩
  cases chain with
  | nil =>
    obtain ⟨e, he, -⟩ := hex
    exact absurd he (List.not_mem_nil e)
  | cons a rest =>
    show (match closestStrikeGo price (a :: rest) Option.none with
      | Option.some sm => PyVal.num sm.1
      | Option.none => PyVal.nan) = PyVal.num s2
    rw [hgo]

/-- C4 counterexample: with candidates at strikes 103 (bid -1, the "no
data" sentinel) and 110 (bid 5) and target price 100, the code returns
strike 103, whose bid the claim's filter would have discarded; the only
claim-valid candidate is 110, so the claimed result would be 110. -/
theorem C4_counterexample :
    get_closest_strike [⟨103, PyVal.num (-1)⟩, ⟨110, PyVal.num 5⟩] 100
      = PyVal.num 103
    ∧ claimValidBid (PyVal.num (-1)) = false
    ∧ claimValidBid (PyVal.num 5) = true
    ∧ (103 : ℚ) ≠ 110 := by
  refine ⟨?_, by decide, by decide, by norm_num⟩
  norm_num [get_closest_strike, closestStrikeGo, PyVal.isNum, abs_of_nonneg]

/-- C4 witness: the amended minimizing property at a concrete chain with
strikes 90 and 105, both with valid bids, and target price 100. -/
theorem C4_witness :
    ∃ s : ℚ, get_closest_strike [⟨90, PyVal.num 1⟩, ⟨105, PyVal.num 2⟩] 100
        = PyVal.num s
      ∧ (∃ e ∈ [OptEntry.mk 90 (PyVal.num 1), OptEntry.mk 105 (PyVal.num 2)],
          e.bid.isNum = true ∧ e.strike = s)
      ∧ ∀ e ∈ [OptEntry.mk 90 (PyVal.num 1), OptEntry.mk 105 (PyVal.num 2)],
          e.bid.isNum = true → |s - 100| ≤ |e.strike - 100| :=
  C4_closest_strike_min _ 100 ⟨⟨90, PyVal.num 1⟩, by simp, rfl⟩

lemma closestStrikeGo_all_skip (price : ℚ) :
    ∀ (rest : List OptEntry) (acc : Option (ℚ × ℚ)),
    (∀ e ∈ rest, e.bid.isNum = false) →
    closestStrikeGo price rest acc = acc := by
  intro rest
  induction rest with
  | nil => intro acc _; rfl
  | cons e rest ih =>
    intro acc h
    show (if e.bid.isNum then _ else _) = _
    rw [if_neg (by rw [h e (List.mem_cons_self e rest)]; simp)]
    exact ih acc (fun e' he' => h e' (List.mem_cons_of_mem e he'))

/-- C5 (confirmed): whenever every candidate of the chain is filtered out
because its bid is None or NaN — in particular when the chain is empty —
`get_closest_strike` returns the NaN "no match" sentinel; the embedding is
total, so no exception escapes (in the source the whole body is wrapped in
a catch-all `except` returning NaN as well). -/
theorem C5_no_candidates_nan (chain : List OptEntry) (price : ℚ)
    (h : ∀ e ∈ chain, e.bid = PyVal.none ∨ e.bid = PyVal.nan) :
    get_closest_strike chain price = PyVal.nan := by
  have hskip : ∀ e ∈ chain, e.bid.isNum = false := by
    intro e he
    rcases h e he with h' | h' <;> rw [h'] <;> rfl
  cases chain with
  | nil => rfl
  | cons a rest =>
    show (match closestStrikeGo price (a :: rest) Option.none with
      | Option.some sm => PyVal.num sm.1
      | Option.none => PyVal.nan) = PyVal.nan
    rw [closestStrikeGo_all_skip price (a :: rest) Option.none hskip]

/-- C5 witness: the empty candidate chain yields NaN. -/
theorem C5_witness : get_closest_strike [] 5 = PyVal.nan :=
  C5_no_candidates_nan [] 5 (by simp)

lemma comboPricesLoop_eq :
    ∀ (legs : List QuoteLeg) (acc : ℚ × ℚ),
    comboPricesLoop legs acc =
      (acc.1 + (legs.map (fun l =>
          quoteContributionQ (if l.action = "SELL" then 1 else -1) l.ratioQ l.bid)).sum,
       acc.2 + (legs.map (fun l =>
          quoteContributionQ (if l.action = "SELL" then 1 else -1) l.ratioQ l.ask)).sum) := by
  intro legs
  induction legs with
  | nil => intro acc; simp [comboPricesLoop]
  | cons l rest ih =>
    intro acc
    show comboPricesLoop rest _ = _
    rw [ih]
    simp only [List.map_cons, List.sum_cons]
    refine Prod.ext ?_ ?_ <;> simp <;> ring

/-- C6 (confirmed against the spec-modelled `get_combo_prices`): the
aggregate bid and ask are the signed sums over legs of the quote times
+1 for a sold leg and -1 for a bought leg, scaled by the ratio; the
aggregate mid is the average of aggregate bid and ask rounded to the
tick size; and on the worked example of two one-lot legs, a BUY leg with
bid 1.0 and a SELL leg with bid 2.0, the aggregate bid is
+2.0 - 1.0 = 1.0. -/
theorem C6_combo_prices_formula (legs : List QuoteLeg) (min_tick : ℚ) :
    (get_combo_prices legs min_tick).1
      = (legs.map (fun l =>
          quoteContributionQ (if l.action = "SELL" then 1 else -1) l.ratioQ l.bid)).sum
    ∧ (get_combo_prices legs min_tick).2.2
      = (legs.map (fun l =>
          quoteContributionQ (if l.action = "SELL" then 1 else -1) l.ratioQ l.ask)).sum
    ∧ (get_combo_prices legs min_tick).2.1
      = roundToTick (((get_combo_prices legs min_tick).1
          + (get_combo_prices legs min_tick).2.2) / 2) min_tick
    ∧ (get_combo_prices
        [⟨"BUY", 1, PyVal.num 1, PyVal.num 1⟩,
         ⟨"SELL", 1, PyVal.num 2, PyVal.num 2⟩] (1 / 100)).1 = 1 := by
  refine ⟨?_, ?_, ?_, ?_⟩
  · simp [get_combo_prices, comboPricesLoop_eq]
  · simp [get_combo_prices, comboPricesLoop_eq]
  · simp [get_combo_prices]
  · rw [show (get_combo_prices
        [⟨"BUY", 1, PyVal.num 1, PyVal.num 1⟩,
         ⟨"SELL", 1, PyVal.num 2, PyVal.num 2⟩] (1 / 100)).1
      = (comboPricesLoop
        [⟨"BUY", 1, PyVal.num 1, PyVal.num 1⟩,
         ⟨"SELL", 1, PyVal.num 2, PyVal.num 2⟩] (0, 0)).1 from rfl,
      comboPricesLoop_eq]
    simp only [List.map_cons, List.map_nil, List.sum_cons, List.sum_nil,
      quoteContributionQ]
    rw [if_neg (show ¬ ("BUY" : String) = "SELL" by decide)]
    norm_num

lemma legOptPrice_ne_some_none (d : LegData) :
    legOptPrice d ≠ Option.some PyVal.none := by
  unfold legOptPrice
  cases hm : d.modelGreeks.getD PyVal.none with
  | none =>
    split_ifs with h1 h2
    · cases hh : d.hist.getLast? <;> simp
    · cases hb : d.bid <;> cases ha : d.ask <;> simp [pyMid]
    · simp
  | nan => simp
  | num q => simp

lemma comboLoop_cons (l : StrategyLeg) (rest : List StrategyLeg) (total : PyVal) :
    comboLoop (l :: rest) total =
      match legOptPrice l.data with
      | Option.none => comboLoop rest total
      | Option.some pv =>
        comboLoop rest (pyAdd total
          (if l.action = "SELL" then pyNeg (pyMul pv l.ratioQ)
           else pyMul pv l.ratioQ)) := rfl

lemma comboLoop_eq_sum :
    ∀ (legs : List StrategyLeg),
    (∀ l ∈ legs, legOptPrice l.data ≠ Option.some PyVal.nan) →
    ∀ t0 : ℚ, comboLoop legs (PyVal.num t0) = PyVal.num (t0 + comboSignedSum legs) := by
  intro legs
  induction legs with
  | nil =>
    intro _ t0
    simp [comboLoop, comboSignedSum]
  | cons l rest ih =>
    intro h t0
    have hrest : ∀ l' ∈ rest, legOptPrice l'.data ≠ Option.some PyVal.nan :=
      fun l' hl' => h l' (List.mem_cons_of_mem l hl')
    rw [comboLoop_cons]
    cases hp : legOptPrice l.data with
    | none =>
      have hc : legContributionQ l = Option.none := by
        simp [legContributionQ, hp]
      rw [ih hrest t0]
      simp [comboSignedSum, List.filterMap_cons, hc]
    | some pv =>
      cases pv with
      | none => exact absurd hp (legOptPrice_ne_some_none l.data)
      | nan => exact absurd hp (h l (List.mem_cons_self l rest))
      | num q =>
        have hc : legContributionQ l
            = Option.some ((if l.action = "SELL" then -1 else 1) * (q * l.ratioQ)) := by
          simp [legContributionQ, hp]
        have hsum : comboSignedSum (l :: rest)
            = (if l.action = "SELL" then -1 else 1) * (q * l.ratioQ)
              + comboSignedSum rest := by
          simp [comboSignedSum, List.filterMap_cons, hc]
        show comboLoop rest (pyAdd (PyVal.num t0)
            (if l.action = "SELL" then pyNeg (pyMul (PyVal.num q) l.ratioQ)
             else pyMul (PyVal.num q) l.ratioQ))
          = PyVal.num (t0 + comboSignedSum (l :: rest))
        by_cases hs : l.action = "SELL"
        · rw [if_pos hs]
          show comboLoop rest (PyVal.num (t0 + -(q * l.ratioQ))) = _
          rw [ih hrest, hsum, if_pos hs]
          exact congrArg PyVal.num (by ring)
        · rw [if_neg hs]
          show comboLoop rest (PyVal.num (t0 + q * l.ratioQ)) = _
          rw [ih hrest, hsum, if_neg hs]
          exact congrArg PyVal.num (by ring)

/-- C7 (confirmed): per-leg resolution of `calc_combo_model_price` follows
the stated chain — the model-derived theoretical price is preferred
whenever the greeks populate with a non-None optPrice; when it is
unavailable and bid and ask are both the -1 sentinel, the latest
historical close is used (or the leg is skipped when no bar exists); when
they are not both -1 but both floats, the bid/ask midpoint is used; and
otherwise the leg is skipped.  Provided no resolved leg price is NaN, the
total is the sum over the non-skipped legs of the leg price times its
ratio, negated for a SELL action, rounded to the tick size. -/
theorem C7_model_price_chain (legs : List StrategyLeg) (min_tick : ℚ)
    (hnn : ∀ l ∈ legs, legOptPrice l.data ≠ Option.some PyVal.nan) :
    calc_combo_model_price legs min_tick
      = PyVal.num (roundToTick (comboSignedSum legs) min_tick)
    ∧ (∀ d : LegData, ∀ v : PyVal, d.modelGreeks = Option.some v →
        v ≠ PyVal.none → legOptPrice d = Option.some v)
    ∧ (∀ d : LegData, d.modelGreeks.getD PyVal.none = PyVal.none →
        d.bid = PyVal.num (-1) → d.ask = PyVal.num (-1) →
        legOptPrice d = (d.hist.getLast?).map PyVal.num)
    ∧ (∀ d : LegData, d.modelGreeks.getD PyVal.none = PyVal.none →
        ¬ (d.bid = PyVal.num (-1) ∧ d.ask = PyVal.num (-1)) →
        d.bid.isNotNone = true → d.ask.isNotNone = true →
        legOptPrice d = Option.some (pyMid d.bid d.ask))
    ∧ (∀ d : LegData, d.modelGreeks.getD PyVal.none = PyVal.none →
        ¬ (d.bid = PyVal.num (-1) ∧ d.ask = PyVal.num (-1)) →
        ¬ (d.bid.isNotNone = true ∧ d.ask.isNotNone = true) →
        legOptPrice d = Option.none) := by
  refine ⟨?_, ?_, ?_, ?_, ?_⟩
  · unfold calc_combo_model_price
    rw [comboLoop_eq_sum legs hnn 0, zero_add]
  · intro d v hm hv
    unfold legOptPrice
    rw [hm]
    cases v with
    | none => exact absurd rfl hv
    | nan => rfl
    | num q => rfl
  · intro d hm hb ha
    unfold legOptPrice
    rw [hm]
    rw [if_pos ⟨hb, ha⟩]
  · intro d hm hne hb ha
    unfold legOptPrice
    rw [hm]
    rw [if_neg hne, if_pos ⟨hb, ha⟩]
  · intro d hm hne hno
    unfold legOptPrice
    rw [hm]
    rw [if_neg hne, if_neg hno]

/-- C7 witness: a two-leg strategy whose legs both carry a theoretical
model price resolves to the rounded signed sum. -/
theorem C7_witness :
    calc_combo_model_price
        [⟨⟨Option.some (PyVal.num 3), PyVal.none, PyVal.none, []⟩, "SELL", 1⟩,
         ⟨⟨Option.some (PyVal.num 1), PyVal.none, PyVal.none, []⟩, "BUY", 1⟩]
        (1 / 100)
      = PyVal.num (roundToTick (comboSignedSum
        [⟨⟨Option.some (PyVal.num 3), PyVal.none, PyVal.none, []⟩, "SELL", 1⟩,
         ⟨⟨Option.some (PyVal.num 1), PyVal.none, PyVal.none, []⟩, "BUY", 1⟩])
        (1 / 100)) :=
  (C7_model_price_chain _ _ (by decide)).1

lemma pyRound_intCast (k : ℤ) : pyRound (k : ℚ) = k := by
  simp [pyRound]

/-- C8 (confirmed): tick rounding by `round(price / min_tick) * min_tick`
is the identity on any price that is an exact (integer) multiple of the
tick size; in particular rounding is idempotent, since its output is
always such a multiple. -/
theorem C8_round_tick_idempotent (price tick : ℚ)
    (h : ∃ k : ℤ, price = k * tick) :
    roundToTick price tick = price := by
  obtain ⟨k, rfl⟩ := h
  by_cases ht : tick = 0
  · subst ht; simp [roundToTick]
  · unfold roundToTick
    rw [mul_div_assoc, div_self ht, mul_one, pyRound_intCast]

/-- C8 witness: 0.3 is tick-aligned for a tick of 0.1 and is returned
unchanged. -/
theorem C8_witness : roundToTick (3 / 10) (1 / 10) = 3 / 10 :=
  C8_round_tick_idempotent (3 / 10) (1 / 10) ⟨3, by norm_num⟩

/-- C9 (confirmed): `submit_adaptive_order_trailing_stop` returns None
without placing any order when the action is outside BUY/SELL or the
order type is outside MKT/LMT; and whenever it returns the primary order,
exactly the primary and the trailing-stop child were placed, and the
child carries the opposite action (SELL for a BUY primary, BUY for a SELL
primary), the same quantity, and a parentId equal to the primary's order
id. -/
theorem C9_adaptive_order_bracket (assignedId : ℕ) (limit_price : ℚ)
    (order_type action : String) (is_live : Bool) (quantity : ℤ)
    (stop_loss_amt : ℚ) :
    (¬ (action = "BUY" ∨ action = "SELL") →
      submit_adaptive_order_trailing_stop assignedId limit_price order_type
        action is_live quantity stop_loss_amt = (Option.none, []))
    ∧ (¬ (order_type = "MKT" ∨ order_type = "LMT") →
      submit_adaptive_order_trailing_stop assignedId limit_price order_type
        action is_live quantity stop_loss_amt = (Option.none, []))
    ∧ (∀ p : Order,
      (submit_adaptive_order_trailing_stop assignedId limit_price order_type
        action is_live quantity stop_loss_amt).1 = Option.some p →
      ∃ trail : Order,
        (submit_adaptive_order_trailing_stop assignedId limit_price order_type
          action is_live quantity stop_loss_amt).2 = [p, trail]
        ∧ (p.action = "BUY" → trail.action = "SELL")
        ∧ (p.action = "SELL" → trail.action = "BUY")
        ∧ trail.totalQuantity = p.totalQuantity
        ∧ trail.parentId = p.orderId) := by
  refine ⟨?_, ?_, ?_⟩
  · intro h
    unfold submit_adaptive_order_trailing_stop
    rw [if_pos h]
  · intro h
    unfold submit_adaptive_order_trailing_stop
    by_cases hA : action = "BUY" ∨ action = "SELL"
    · rw [if_neg (not_not_intro hA), if_pos h]
    · rw [if_pos hA]
  · intro p hp
    unfold submit_adaptive_order_trailing_stop at hp ⊢
    by_cases hA : action = "BUY" ∨ action = "SELL"
    · rw [if_neg (not_not_intro hA)] at hp ⊢
      by_cases hT : order_type = "MKT" ∨ order_type = "LMT"
      · rw [if_neg (not_not_intro hT)] at hp ⊢
        by_cases hid : assignedId = 0
        · rw [if_pos hid] at hp
          exact absurd hp (by simp)
        · rw [if_neg hid] at hp ⊢
          have hpeq : p =
              { orderType := order_type, action := action,
                totalQuantity := quantity, tif := "DAY",
                algoStrategy := "Adaptive",
                lmtPrice := if order_type = "LMT" then Option.some limit_price
                  else Option.none,
                auxPrice := Option.none, parentId := 0, orderId := assignedId,
                transmit := false } := by
            simpa using hp.symm
          subst hpeq
          refine ⟨_, rfl, ?_, ?_, rfl, rfl⟩
          · intro hbuy
            show (if action = "BUY" then "SELL" else "BUY") = "SELL"
            rw [if_pos hbuy]
          · intro hsell
            have hsell2 : action = "SELL" := hsell
            have hnb : ¬ action = "BUY" := by
              rw [hsell2]; decide
            show (if action = "BUY" then "SELL" else "BUY") = "BUY"
            rw [if_neg hnb]
      · rw [if_pos hT] at hp
        exact absurd hp (by simp)
    · rw [if_pos hA] at hp
      exact absurd hp (by simp)

/-- C9 witness: a valid BUY limit order with a broker-assigned id 7 places
the primary and a linked SELL trailing stop of the same quantity. -/
theorem C9_witness :
    ∃ trail : Order,
      (submit_adaptive_order_trailing_stop 7 5 "LMT" "BUY" true 1 2).2
        = [{ orderType := "LMT", action := "BUY", totalQuantity := 1,
             tif := "DAY", algoStrategy := "Adaptive",
             lmtPrice := Option.some 5, auxPrice := Option.none,
             parentId := 0, orderId := 7, transmit := false }, trail]
      ∧ (({ orderType := "LMT", action := "BUY", totalQuantity := 1,
             tif := "DAY", algoStrategy := "Adaptive",
             lmtPrice := Option.some 5, auxPrice := Option.none,
             parentId := 0, orderId := 7, transmit := false } : Order).action
          = "BUY" → trail.action = "SELL")
      ∧ (({ orderType := "LMT", action := "BUY", totalQuantity := 1,
             tif := "DAY", algoStrategy := "Adaptive",
             lmtPrice := Option.some 5, auxPrice := Option.none,
             parentId := 0, orderId := 7, transmit := false } : Order).action
          = "SELL" → trail.action = "BUY")
      ∧ trail.totalQuantity = 1
      ∧ trail.parentId = 7 :=
  (C9_adaptive_order_bracket 7 5 "LMT" "BUY" true 1 2).2.2 _ rfl

lemma zip3_comboLegs_maps :
    ∀ (legs : List Contract) (actions : List String) (ratios : List ℕ),
    legs.length = actions.length → actions.length = ratios.length →
    (((zip3 legs actions ratios).map (fun t =>
        (⟨t.1.conId, t.2.1, t.2.2, t.1.exchange, 0⟩ : ComboLeg))).map ComboLeg.conId
      = legs.map Contract.conId)
    ∧ (((zip3 legs actions ratios).map (fun t =>
        (⟨t.1.conId, t.2.1, t.2.2, t.1.exchange, 0⟩ : ComboLeg))).map ComboLeg.action
      = actions)
    ∧ (((zip3 legs actions ratios).map (fun t =>
        (⟨t.1.conId, t.2.1, t.2.2, t.1.exchange, 0⟩ : ComboLeg))).map ComboLeg.ratioN
      = ratios)
    ∧ (((zip3 legs actions ratios).map (fun t =>
        (⟨t.1.conId, t.2.1, t.2.2, t.1.exchange, 0⟩ : ComboLeg))).map ComboLeg.exchange
      = legs.map Contract.exchange) := by
  intro legs
  induction legs with
  | nil =>
    intro actions ratios h1 h2
    cases actions with
    | nil =>
      cases ratios with
      | nil => simp [zip3]
      | cons r ratios => simp at h2
    | cons a actions => simp at h1
  | cons c legs ih =>
    intro actions ratios h1 h2
    cases actions with
    | nil => simp at h1
    | cons a actions =>
      cases ratios with
      | nil => simp at h2
      | cons r ratios =>
        have hrec := ih actions ratios (by simpa using h1) (by simpa using h2)
        refine ⟨?_, ?_, ?_, ?_⟩
        · simp only [zip3, List.map_cons]
          rw [hrec.1]
        · simp only [zip3, List.map_cons]
          rw [hrec.2.1]
        · simp only [zip3, List.map_cons]
          rw [hrec.2.2.1]
        · simp only [zip3, List.map_cons]
          rw [hrec.2.2.2]

/-- C10 (confirmed): `create_bag` returns a combo with security type BAG
carrying the underlying's symbol, currency and exchange; every combo leg
has openClose 0; when the legs, actions and ratios lists have equal
lengths the comboLegs list has exactly one entry per input leg, in order,
preserving each leg's conId, action, ratio and exchange; and
`iron_condor` always builds a 4-leg combo with actions
SELL, BUY, SELL, BUY, all ratios 1, and the four legs' conIds in order. -/
theorem C10_create_bag_combo (und : Contract) (legs : List Contract)
    (actions : List String) (ratios : List ℕ)
    (sp bp sc bc : Contract) :
    (create_bag und legs actions ratios).secType = "BAG"
    ∧ (create_bag und legs actions ratios).symbol = und.symbol
    ∧ (create_bag und legs actions ratios).currency = und.currency
    ∧ (create_bag und legs actions ratios).exchange = und.exchange
    ∧ (∀ e ∈ (create_bag und legs actions ratios).comboLegs, e.openClose = 0)
    ∧ (legs.length = actions.length → actions.length = ratios.length →
        (create_bag und legs actions ratios).comboLegs.map ComboLeg.conId
          = legs.map Contract.conId
        ∧ (create_bag und legs actions ratios).comboLegs.map ComboLeg.action
          = actions
        ∧ (create_bag und legs actions ratios).comboLegs.map ComboLeg.ratioN
          = ratios
        ∧ (create_bag und legs actions ratios).comboLegs.map ComboLeg.exchange
          = legs.map Contract.exchange)
    ∧ ((iron_condor_bag und sp bp sc bc).comboLegs.map ComboLeg.action
        = ["SELL", "BUY", "SELL", "BUY"]
      ∧ (iron_condor_bag und sp bp sc bc).comboLegs.map ComboLeg.ratioN
        = [1, 1, 1, 1]
      ∧ (iron_condor_bag und sp bp sc bc).comboLegs.map ComboLeg.conId
        = [sp.conId, bp.conId, sc.conId, bc.conId]) := by
  refine ⟨rfl, rfl, rfl, rfl, ?_, ?_, rfl, rfl, rfl⟩
  · intro e he
    simp only [create_bag, List.mem_map] at he
    obtain ⟨t, -, rfl⟩ := he
    rfl
  · intro h1 h2
    exact zip3_comboLegs_maps legs actions ratios h1 h2

/-- C10 witness: a one-leg bag with equal-length lists preserves the leg's
conId, action, ratio and exchange. -/
theorem C10_witness :
    (create_bag ⟨"SPX", "IND", "USD", "CBOE", 1⟩ [⟨"SPX", "OPT", "USD", "CBOE", 42⟩]
        ["SELL"] [1]).comboLegs.map ComboLeg.conId
      = [(⟨"SPX", "OPT", "USD", "CBOE", 42⟩ : Contract)].map Contract.conId
    ∧ (create_bag ⟨"SPX", "IND", "USD", "CBOE", 1⟩ [⟨"SPX", "OPT", "USD", "CBOE", 42⟩]
        ["SELL"] [1]).comboLegs.map ComboLeg.action = ["SELL"]
    ∧ (create_bag ⟨"SPX", "IND", "USD", "CBOE", 1⟩ [⟨"SPX", "OPT", "USD", "CBOE", 42⟩]
        ["SELL"] [1]).comboLegs.map ComboLeg.ratioN = [1]
    ∧ (create_bag ⟨"SPX", "IND", "USD", "CBOE", 1⟩ [⟨"SPX", "OPT", "USD", "CBOE", 42⟩]
        ["SELL"] [1]).comboLegs.map ComboLeg.exchange
      = [(⟨"SPX", "OPT", "USD", "CBOE", 42⟩ : Contract)].map Contract.exchange :=
  (C10_create_bag_combo ⟨"SPX", "IND", "USD", "CBOE", 1⟩
    [⟨"SPX", "OPT", "USD", "CBOE", 42⟩] ["SELL"] [1]
    ⟨"SPX", "OPT", "USD", "CBOE", 42⟩ ⟨"SPX", "OPT", "USD", "CBOE", 42⟩
    ⟨"SPX", "OPT", "USD", "CBOE", 42⟩ ⟨"SPX", "OPT", "USD", "CBOE", 42⟩).2.2.2.2.2.1
    rfl rfl

end Meic
